import Mathlib

/-!
Shallow embedding of the algorithmic core of `preprocessor.py`:
the noisy wordpiece `tokenize` function and the discretized
truncated-normal `generate_target_dist` function, together with the
`functools.lru_cache(maxsize=None)` memoization wrapper applied to the
latter.

Modelling choices:
* Python strings are `List Char`.
* The shared random source (`from random import random`) is a stream
  `Nat → ℚ`; `ScanStats.idx` is the position in the stream, so the number
  of draws consumed by a computation is the increase of `idx`.
  `ScanStats.cands` counts candidate substrings evaluated by the scan and
  `ScanStats.hits` counts those found in the vocabulary (exactly the
  candidates for which `random()` is actually called, since Python's `and`
  short-circuits).
* Real-number arithmetic is over `ℚ`; `scipy.stats.truncnorm.cdf` is an
  abstract parameter `cdf x a b loc scale`, and Python's raising division
  is `pydiv`, returning `Except String`.
-/

namespace Jigsaw

/-- Characters of a Python string. -/
abbrev Str := List Char

/-- The `"##"` continuation marker prepended to non-initial wordpiece candidates. -/
def contMark : Str := ['#', '#']

/-- Position in the shared random stream (`idx`: draws consumed so far), number of
candidate substrings evaluated (`cands`), and number of candidates found in the
vocabulary (`hits`; each such candidate consumed one random draw). -/
structure ScanStats where
  idx : Nat
  cands : Nat
  hits : Nat
  deriving DecidableEq

/-- Inner `while start < end` loop of `tokenize` (src/preprocessor.py lines
149-157): try the candidate `chars[start:end]` for `end` decreasing, prefixing
the continuation marker when `start > 0`; a candidate that is in the vocabulary
consumes one random draw and is accepted when the draw exceeds `0.1`
(`substr in self.vocab and random() > 0.1`, which short-circuits). Returns the
accepted `(cur_substr, end)` if any, with the updated stats. -/
def innerScan (vocab : List Str) (rsrc : Nat → ℚ) (chars : Str) (start : Nat) :
    Nat → ScanStats → Option (Str × Nat) × ScanStats
  | 0, st => (none, st)
  | e + 1, st =>
    if start < e + 1 then
      let substr0 := (chars.drop start).take (e + 1 - start)
      let substr := if 0 < start then contMark ++ substr0 else substr0
      if substr ∈ vocab then
        if (1 : ℚ) / 10 < rsrc st.idx then
          (some (substr, e + 1), ⟨st.idx + 1, st.cands + 1, st.hits + 1⟩)
        else
          innerScan vocab rsrc chars start e ⟨st.idx + 1, st.cands + 1, st.hits + 1⟩
      else
        innerScan vocab rsrc chars start e ⟨st.idx, st.cands + 1, st.hits⟩
    else (none, st)

/-- Outer `while start < len(chars)` loop of `tokenize` (lines 146-162), with a
fuel argument bounding the number of iterations. `some (some toks, st)` is a
completed scan, `some (none, st)` is the `is_bad` outcome, and `none` is fuel
exhaustion — which never happens when the fuel is at least
`chars.length - start`, since an accepted match always has `end > start`. -/
def outerScan (vocab : List Str) (rsrc : Nat → ℚ) (chars : Str) :
    Nat → Nat → ScanStats → List Str → Option (Option (List Str) × ScanStats)
  | 0, start, st, acc =>
    if start < chars.length then none else some (some acc, st)
  | fuel + 1, start, st, acc =>
    if start < chars.length then
      match innerScan vocab rsrc chars start chars.length st with
      | (none, st') => some (none, st')
      | (some (tok, e), st') => outerScan vocab rsrc chars fuel e st' (acc ++ [tok])
    else some (some acc, st)

/-- Per-word body of `tokenize` (lines 138-167): a word longer than
`max_input_chars_per_word` becomes `[unk_token]`; otherwise the greedy scan
runs, and an `is_bad` outcome also yields `[unk_token]` (the fuel
`word.length` is always sufficient, see `outerScan_isSome`; the `none` fallback
branch is unreachable). -/
def tokenizeWord (vocab : List Str) (rsrc : Nat → ℚ) (maxChars : Nat) (unk : Str)
    (word : Str) (st : ScanStats) : List Str × ScanStats :=
  if word.length > maxChars then ([unk], st)
  else
    match outerScan vocab rsrc word word.length 0 st [] with
    | some (some toks, st') => (toks, st')
    | some (none, st') => ([unk], st')
    | none => ([unk], st)

/-- `whitespace_tokenize` (lines 128-134): strip, return `[]` on an empty result,
else split on whitespace (Python's `split()` discards empty pieces). -/
def whitespace_tokenize (text : String) : List Str :=
  let t := text.trim
  if t = "" then []
  else ((t.split fun c => c.isWhitespace).map String.data).filter fun w => w ≠ []

/-- The monkeypatched `tokenize` (lines 119-168): tokenize each whitespace word
in order, threading the shared random stream through, and concatenate the
per-word outputs. -/
def tokenize (vocab : List Str) (rsrc : Nat → ℚ) (maxChars : Nat) (unk : Str)
    (text : String) (st : ScanStats) : List Str × ScanStats :=
  (whitespace_tokenize text).foldl
    (fun acc w =>
      let r := tokenizeWord vocab rsrc maxChars unk w acc.2
      (acc.1 ++ r.1, r.2))
    ([], st)

/-- Strip the two-character continuation marker from every piece and concatenate. -/
def dropMarks (ts : List Str) : Str := (ts.map fun t => t.drop 2).flatten

/-- Concatenate the pieces produced by a scan that began at position `start`: a
piece carries a continuation marker (to be stripped) exactly when it was
matched at a positive position, which for the first piece means `start > 0`. -/
def restJoin (start : Nat) (ts : List Str) : Str :=
  if 0 < start then dropMarks ts
  else
    match ts with
    | [] => []
    | t :: rest => t ++ dropMarks rest

/-- Concatenation of the output tokens of a whole-word scan after stripping the
continuation marker from the non-initial pieces. -/
def joinStrip (ts : List Str) : Str := restJoin 0 ts

/-- The five-argument interface of `scipy.stats.truncnorm.cdf`:
`cdf x a b loc scale`. -/
abbrev TruncCdf := ℚ → ℚ → ℚ → ℚ → ℚ → ℚ

/-- Python division, which raises `ZeroDivisionError` on a zero divisor. -/
def pydiv (a b : ℚ) : Except String ℚ :=
  if b = 0 then Except.error "ZeroDivisionError" else Except.ok (a / b)

/-- `trunc_norm_prob` (lines 103-112): probability mass of the bin centered at
`center`, as the difference of the truncated-normal CDF at the two bin edges;
each `truncnorm.cdf` call standardizes the bounds as `(low - mean) / radius`
and `(high - mean) / radius`, raising `ZeroDivisionError` when `radius = 0`. -/
def trunc_norm_prob (cdf : TruncCdf) (mean low high radius center : ℚ) :
    Except String ℚ :=
  match pydiv (low - mean) radius, pydiv (high - mean) radius with
  | Except.error e, _ => Except.error e
  | Except.ok _, Except.error e => Except.error e
  | Except.ok a, Except.ok b =>
    Except.ok (cdf (center + radius) a b mean radius -
      cdf (center - radius) a b mean radius)

/-- Evaluate `f` on each list element in order, propagating the first raised
exception: the model of a Python list comprehension over a raising body. -/
def mapExcept {α β : Type} (f : α → Except String β) : List α → Except String (List β)
  | [] => Except.ok []
  | a :: l =>
    match f a, mapExcept f l with
    | Except.error e, _ => Except.error e
    | Except.ok _, Except.error e => Except.error e
    | Except.ok b, Except.ok bs => Except.ok (b :: bs)

/-- `generate_target_dist` (lines 91-116), uncached: compute
`radius = 0.5 * (high - low) / num_bins` (raising on `num_bins = 0`), the
`num_bins` supports `x * (2 * radius) + radius + low` for `x in range(num_bins)`
(empty when `num_bins < 0`, as Python's `range`), and their probabilities. -/
def generate_target_dist (cdf : TruncCdf) (mean : ℚ) (num_bins : ℤ) (low high : ℚ) :
    Except String (List ℚ × List ℚ) :=
  match pydiv (1 / 2 * (high - low)) ((num_bins : ℤ) : ℚ) with
  | Except.error e => Except.error e
  | Except.ok radius =>
    let supports := (List.range num_bins.toNat).map
      fun x : Nat => (x : ℚ) * (2 * radius) + radius + low
    match mapExcept (trunc_norm_prob cdf mean low high radius) supports with
    | Except.error e => Except.error e
    | Except.ok probs => Except.ok (supports, probs)

/-- Association-list lookup, the model of a Python dict keyed lookup. -/
def lookupKey {α β : Type} [DecidableEq α] (k : α) : List (α × β) → Option β
  | [] => none
  | (a, b) :: es => if a = k then some b else lookupKey k es

/-- The unbounded table of a `functools.lru_cache(maxsize=None)` wrapper. -/
structure MemoCache (α β : Type) where
  table : List (α × β)

/-- One call through an `lru_cache(maxsize=None)`-style memo wrapper around a
raising computation: look the argument tuple up; on a hit return the stored
value; on a miss invoke the wrapped function, store the result only when it
returns normally, and let a raised exception propagate without populating the
cache (`functools.lru_cache` does not cache exceptions). The returned `Nat`
counts invocations of the wrapped function during this call (0 on a hit,
1 on a miss). -/
def cachedCall {α β : Type} [DecidableEq α] (f : α → Except String β)
    (c : MemoCache α β) (k : α) : Except String β × MemoCache α β × Nat :=
  match lookupKey k c.table with
  | some v => (Except.ok v, c, 0)
  | none =>
    match f k with
    | Except.error e => (Except.error e, c, 1)
    | Except.ok v => (Except.ok v, ⟨(k, v) :: c.table⟩, 1)

/-- The `(mean, num_bins, low, high)` argument tuple of `generate_target_dist`. -/
abbrev GtdKey := ℚ × ℤ × ℚ × ℚ

/-- `generate_target_dist` as decorated by `@lru_cache(maxsize=None)` (line 91):
one call through the memo cache. -/
def generate_target_dist_cached (cdf : TruncCdf)
    (c : MemoCache GtdKey (List ℚ × List ℚ)) (k : GtdKey) :
    Except String (List ℚ × List ℚ) × MemoCache GtdKey (List ℚ × List ℚ) × Nat :=
  cachedCall (fun q => generate_target_dist cdf q.1 q.2.1 q.2.2.1 q.2.2.2) c k

/-- The value `0.5 * (high - low) / num_bins` computed by `generate_target_dist`
when `num_bins ≠ 0`. -/
def radiusOf (num_bins : ℤ) (low high : ℚ) : ℚ :=
  1 / 2 * (high - low) / ((num_bins : ℤ) : ℚ)

/-- The supports `[x * (2 * radius) + radius + low for x in range(num_bins)]`. -/
def binCenters (num_bins : ℤ) (low high : ℚ) : List ℚ :=
  (List.range num_bins.toNat).map
    fun x : Nat => (x : ℚ) * (2 * radiusOf num_bins low high) +
      radiusOf num_bins low high + low

/-- The value returned by `trunc_norm_prob` when `radius ≠ 0`. -/
def binProb (cdf : TruncCdf) (mean low high radius center : ℚ) : ℚ :=
  cdf (center + radius) ((low - mean) / radius) ((high - mean) / radius) mean
      radius -
    cdf (center - radius) ((low - mean) / radius) ((high - mean) / radius) mean
      radius

/-- The clamp function `x ↦ max 0 (min 1 x)`: a concrete monotone CDF bounded
by 0 and 1, used to instantiate the abstract truncated-normal CDF. -/
def clampCdf : TruncCdf := fun x _ _ _ _ => max 0 (min 1 x)

/-! ### Helper lemmas about the tokenizer scan -/

/-- The inner scan only inspects the random stream through comparisons with the
corruption threshold, so two streams agreeing on those comparisons scan alike. -/
theorem innerScan_ext (vocab : List Str) (rsrc rsrc' : Nat → ℚ) (chars : Str)
    (start : Nat) (h : ∀ i, ((1 : ℚ) / 10 < rsrc i ↔ (1 : ℚ) / 10 < rsrc' i)) :
    ∀ (e : Nat) (st : ScanStats),
      innerScan vocab rsrc chars start e st = innerScan vocab rsrc' chars start e st := by
  intro e
  induction e with
  | zero => intro st; rfl
  | succ e ih =>
    intro st
    simp only [innerScan]
    by_cases h1 : start < e + 1
    · simp only [if_pos h1]
      by_cases h2 : (if 0 < start then contMark ++ ((chars.drop start).take (e + 1 - start))
          else (chars.drop start).take (e + 1 - start)) ∈ vocab
      · simp only [if_pos h2]
        by_cases h3 : (1 : ℚ) / 10 < rsrc st.idx
        · rw [if_pos h3, if_pos ((h st.idx).mp h3)]
        · rw [if_neg h3, if_neg (fun hc => h3 ((h st.idx).mpr hc)), ih]
      · simp only [if_neg h2]
        exact ih _
    · simp only [if_neg h1]

/-- The outer scan under two streams agreeing on all threshold comparisons. -/
theorem outerScan_ext (vocab : List Str) (rsrc rsrc' : Nat → ℚ) (chars : Str)
    (h : ∀ i, ((1 : ℚ) / 10 < rsrc i ↔ (1 : ℚ) / 10 < rsrc' i)) :
    ∀ (fuel start : Nat) (st : ScanStats) (acc : List Str),
      outerScan vocab rsrc chars fuel start st acc =
        outerScan vocab rsrc' chars fuel start st acc := by
  intro fuel
  induction fuel with
  | zero => intro start st acc; rfl
  | succ fuel ih =>
    intro start st acc
    simp only [outerScan]
    by_cases h1 : start < chars.length
    · simp only [if_pos h1, innerScan_ext vocab rsrc rsrc' chars start h]
      cases innerScan vocab rsrc' chars start chars.length st with
      | mk r st' =>
        cases r with
        | none => rfl
        | some te => exact ih _ _ _
    · simp only [if_neg h1]

/-- The whole per-word tokenizer under two streams agreeing on all threshold
comparisons. -/
theorem tokenizeWord_ext (vocab : List Str) (rsrc rsrc' : Nat → ℚ) (maxChars : Nat)
    (unk word : Str) (st : ScanStats)
    (h : ∀ i, ((1 : ℚ) / 10 < rsrc i ↔ (1 : ℚ) / 10 < rsrc' i)) :
    tokenizeWord vocab rsrc maxChars unk word st =
      tokenizeWord vocab rsrc' maxChars unk word st := by
  simp only [tokenizeWord, outerScan_ext vocab rsrc rsrc' word h]

/-- Each random draw consumed by the inner scan corresponds to exactly one
candidate found in the vocabulary: the stream index and the hit counter advance
in lockstep. -/
theorem innerScan_idx_hits (vocab : List Str) (rsrc : Nat → ℚ) (chars : Str)
    (start : Nat) : ∀ (e : Nat) (st : ScanStats), ∃ d,
      (innerScan vocab rsrc chars start e st).2.idx = st.idx + d ∧
      (innerScan vocab rsrc chars start e st).2.hits = st.hits + d := by
  intro e
  induction e with
  | zero => intro st; exact ⟨0, rfl, rfl⟩
  | succ e ih =>
    intro st
    simp only [innerScan]
    by_cases h1 : start < e + 1
    · simp only [if_pos h1]
      by_cases h2 : (if 0 < start then contMark ++ ((chars.drop start).take (e + 1 - start))
          else (chars.drop start).take (e + 1 - start)) ∈ vocab
      · simp only [if_pos h2]
        by_cases h3 : (1 : ℚ) / 10 < rsrc st.idx
        · simp only [if_pos h3]
          exact ⟨1, rfl, rfl⟩
        · simp only [if_neg h3]
          obtain ⟨d, hd1, hd2⟩ := ih ⟨st.idx + 1, st.cands + 1, st.hits + 1⟩
          dsimp only at hd1 hd2
          exact ⟨d + 1, by omega, by omega⟩
      · simp only [if_neg h2]
        obtain ⟨d, hd1, hd2⟩ := ih ⟨st.idx, st.cands + 1, st.hits⟩
        dsimp only at hd1 hd2
        exact ⟨d, by omega, by omega⟩
    · simp only [if_neg h1]
      exact ⟨0, rfl, rfl⟩

/-- Shape of an accepted inner-scan match: the accepting end strictly exceeds
`start`, is at most the initial end, and the token is `chars[start:end]` with
the continuation marker prepended exactly when `start > 0`. -/
theorem innerScan_some (vocab : List Str) (rsrc : Nat → ℚ) (chars : Str)
    (start : Nat) : ∀ (e : Nat) (st : ScanStats) (tok : Str) (e2 : Nat)
      (st2 : ScanStats),
      innerScan vocab rsrc chars start e st = (some (tok, e2), st2) →
      start < e2 ∧ e2 ≤ e ∧
        tok = (if 0 < start then contMark ++ ((chars.drop start).take (e2 - start))
          else (chars.drop start).take (e2 - start)) := by
  intro e
  induction e with
  | zero =>
    intro st tok e2 st2 h
    simp [innerScan] at h
  | succ e ih =>
    intro st tok e2 st2 h
    simp only [innerScan] at h
    by_cases h1 : start < e + 1
    · rw [if_pos h1] at h
      by_cases h2 : (if 0 < start then contMark ++ ((chars.drop start).take (e + 1 - start))
          else (chars.drop start).take (e + 1 - start)) ∈ vocab
      · rw [if_pos h2] at h
        by_cases h3 : (1 : ℚ) / 10 < rsrc st.idx
        · rw [if_pos h3] at h
          simp only [Prod.mk.injEq, Option.some.injEq] at h
          obtain ⟨⟨h6, h7⟩, -⟩ := h
          subst h7
          exact ⟨h1, le_refl _, h6.symm⟩
        · rw [if_neg h3] at h
          obtain ⟨ha, hb, hc⟩ := ih _ _ _ _ h
          exact ⟨ha, by omega, hc⟩
      · rw [if_neg h2] at h
        obtain ⟨ha, hb, hc⟩ := ih _ _ _ _ h
        exact ⟨ha, by omega, hc⟩
    · rw [if_neg h1] at h
      simp at h

/-- Fuel sufficiency: since every accepted match strictly advances the cursor,
fuel `chars.length - start` is enough for the outer scan to reach a definite
outcome; in particular the per-word loop of `tokenize` always terminates. -/
theorem outerScan_isSome (vocab : List Str) (rsrc : Nat → ℚ) (chars : Str) :
    ∀ (fuel start : Nat) (st : ScanStats) (acc : List Str),
      chars.length - start ≤ fuel →
      outerScan vocab rsrc chars fuel start st acc ≠ none := by
  intro fuel
  induction fuel with
  | zero =>
    intro start st acc hle
    have h1 : ¬ start < chars.length := by omega
    simp [outerScan, h1]
  | succ fuel ih =>
    intro start st acc hle
    simp only [outerScan]
    by_cases h1 : start < chars.length
    · rw [if_pos h1]
      rcases hI : innerScan vocab rsrc chars start chars.length st with ⟨r, st1⟩
      cases r with
      | none => simp
      | some te =>
        obtain ⟨ha, -, -⟩ := innerScan_some vocab rsrc chars start _ _ _ _ _ hI
        exact ih te.2 st1 (acc ++ [te.1]) (by omega)
    · rw [if_neg h1]
      simp

/-- Random draws and vocabulary hits advance in lockstep through the whole
outer scan, whatever its outcome. -/
theorem outerScan_idx_hits (vocab : List Str) (rsrc : Nat → ℚ) (chars : Str) :
    ∀ (fuel start : Nat) (st : ScanStats) (acc : List Str)
      (p : Option (List Str) × ScanStats),
      outerScan vocab rsrc chars fuel start st acc = some p →
      ∃ d, p.2.idx = st.idx + d ∧ p.2.hits = st.hits + d := by
  intro fuel
  induction fuel with
  | zero =>
    intro start st acc p h
    by_cases h1 : start < chars.length
    · simp [outerScan, h1] at h
    · simp [outerScan, h1] at h
      cases h
      exact ⟨0, rfl, rfl⟩
  | succ fuel ih =>
    intro start st acc p h
    simp only [outerScan] at h
    by_cases h1 : start < chars.length
    · rw [if_pos h1] at h
      rcases hI : innerScan vocab rsrc chars start chars.length st with ⟨r, st1⟩
      rw [hI] at h
      obtain ⟨d1, hd1, hd2⟩ := innerScan_idx_hits vocab rsrc chars start chars.length st
      rw [hI] at hd1 hd2
      dsimp only at hd1 hd2
      cases r with
      | none =>
        simp only [Option.some.injEq] at h
        cases h
        exact ⟨d1, hd1, hd2⟩
      | some te =>
        obtain ⟨d2, hd3, hd4⟩ := ih te.2 st1 (acc ++ [te.1]) p h
        exact ⟨d1 + d2, by omega, by omega⟩
    · rw [if_neg h1] at h
      simp only [Option.some.injEq] at h
      cases h
      exact ⟨0, rfl, rfl⟩

/-- `restJoin` of the empty token list is the empty word. -/
theorem restJoin_nil (start : Nat) : restJoin start [] = [] := by
  unfold restJoin dropMarks
  split <;> simp

/-- A completed outer scan extends the accumulator with pieces that concatenate
back, after stripping continuation markers, to the unscanned remainder of the
word. -/
theorem outerScan_ok (vocab : List Str) (rsrc : Nat → ℚ) (chars : Str) :
    ∀ (fuel start : Nat) (st : ScanStats) (acc toks : List Str) (st2 : ScanStats),
      outerScan vocab rsrc chars fuel start st acc = some (some toks, st2) →
      ∃ rest, toks = acc ++ rest ∧ restJoin start rest = chars.drop start := by
  intro fuel
  induction fuel with
  | zero =>
    intro start st acc toks st2 h
    by_cases h1 : start < chars.length
    · simp [outerScan, h1] at h
    · simp [outerScan, h1] at h
      refine ⟨[], by simp [h.1], ?_⟩
      rw [restJoin_nil, List.drop_eq_nil_of_le (by omega)]
  | succ fuel ih =>
    intro start st acc toks st2 h
    simp only [outerScan] at h
    by_cases h1 : start < chars.length
    · rw [if_pos h1] at h
      rcases hI : innerScan vocab rsrc chars start chars.length st with ⟨r, st1⟩
      rw [hI] at h
      cases r with
      | none => simp at h
      | some te =>
        obtain ⟨ha, hb, hc⟩ := innerScan_some vocab rsrc chars start _ _ _ _ _ hI
        obtain ⟨rest, hrest, hjoin⟩ := ih te.2 st1 (acc ++ [te.1]) toks st2 h
        refine ⟨te.1 :: rest, by simp [hrest], ?_⟩
        have hjoin2 : dropMarks rest = chars.drop te.2 := by
          unfold restJoin at hjoin
          rwa [if_pos (by omega : 0 < te.2)] at hjoin
        have hmid : (chars.drop start).take (te.2 - start) ++ chars.drop te.2 =
            chars.drop start := by
          have : chars.drop te.2 = (chars.drop start).drop (te.2 - start) := by
            rw [List.drop_drop]
            congr 1
            omega
          rw [this, List.take_append_drop]
        by_cases hs : 0 < start
        · unfold restJoin
          rw [if_pos hs]
          rw [if_pos hs] at hc
          have : dropMarks (te.1 :: rest) = (chars.drop start).take (te.2 - start) ++
              dropMarks rest := by
            simp [dropMarks, hc, contMark]
          rw [this, hjoin2, hmid]
        · unfold restJoin
          rw [if_neg hs]
          rw [if_neg hs] at hc
          rw [hc]
          show (chars.drop start).take (te.2 - start) ++ dropMarks rest = _
          rw [hjoin2, hmid]
    · rw [if_neg h1] at h
      simp only [Option.some.injEq, Prod.mk.injEq] at h
      refine ⟨[], by simp [← h.1], ?_⟩
      rw [restJoin_nil, List.drop_eq_nil_of_le (by omega)]

/-! ### Claim theorems about the tokenizer -/

/-- C2 (amended): per word, the number of random draws consumed equals the
number of candidate substrings evaluated that are present in the vocabulary —
not the number of all candidates tried — because `substr in self.vocab and
random() > 0.1` short-circuits: the stream index and the vocabulary-hit counter
advance by the same amount `d`. -/
theorem C2_draws_eq_vocab_hits (vocab : List Str) (rsrc : Nat → ℚ) (maxChars : Nat)
    (unk word : Str) (st : ScanStats) : ∃ d,
      (tokenizeWord vocab rsrc maxChars unk word st).2.idx = st.idx + d ∧
      (tokenizeWord vocab rsrc maxChars unk word st).2.hits = st.hits + d := by
  unfold tokenizeWord
  by_cases h1 : word.length > maxChars
  · rw [if_pos h1]
    exact ⟨0, rfl, rfl⟩
  · rw [if_neg h1]
    rcases hO : outerScan vocab rsrc word word.length 0 st [] with _ | ⟨r, st2⟩
    · exact ⟨0, rfl, rfl⟩
    · obtain ⟨d, hd1, hd2⟩ := outerScan_idx_hits vocab rsrc word _ _ _ _ _ hO
      cases r with
      | none => exact ⟨d, hd1, hd2⟩
      | some toks => exact ⟨d, hd1, hd2⟩

/-- C2 counterexample: with an empty vocabulary, the word `"a"` evaluates one
candidate substring but consumes zero random draws, so the number of draws does
not equal the number of candidates tried, refuting the claim as stated. -/
theorem C2_counterexample :
    ¬ ((tokenizeWord [] (fun _ => mkRat 9 10) 10 "[UNK]".data "a".data
          ⟨0, 0, 0⟩).2.idx =
       (tokenizeWord [] (fun _ => mkRat 9 10) 10 "[UNK]".data "a".data
          ⟨0, 0, 0⟩).2.cands) := by
  decide

/-- C3: the scan is greedy longest-match-first; with every draw exceeding 0.1,
word `"unable"` against vocabulary `{"un", "##able", "unable"}` yields
`["unable"]`, and against `{"un", "##able"}` yields `["un", "##able"]`. -/
theorem C3_greedy_longest_match (rsrc : Nat → ℚ)
    (h : ∀ i, (1 : ℚ) / 10 < rsrc i) :
    (tokenizeWord ["un".data, "##able".data, "unable".data] rsrc 100 "[UNK]".data
        "unable".data ⟨0, 0, 0⟩).1 = ["unable".data] ∧
    (tokenizeWord ["un".data, "##able".data] rsrc 100 "[UNK]".data
        "unable".data ⟨0, 0, 0⟩).1 = ["un".data, "##able".data] := by
  have hx : ∀ i, ((1 : ℚ) / 10 < rsrc i ↔ (1 : ℚ) / 10 < (fun _ => mkRat 9 10) i) :=
    fun i => iff_of_true (h i)
      (show (1 : ℚ) / 10 < mkRat 9 10 by with_unfolding_all decide)
  constructor
  · rw [tokenizeWord_ext _ rsrc (fun _ => mkRat 9 10) _ _ _ _ hx]
    with_unfolding_all rfl
  · rw [tokenizeWord_ext _ rsrc (fun _ => mkRat 9 10) _ _ _ _ hx]
    with_unfolding_all rfl

/-- C3 witness: the two scenarios evaluated at the constant stream 9/10. -/
theorem C3_scenarios_concrete :
    (tokenizeWord ["un".data, "##able".data, "unable".data] (fun _ => mkRat 9 10) 100
        "[UNK]".data "unable".data ⟨0, 0, 0⟩).1 = ["unable".data] ∧
    (tokenizeWord ["un".data, "##able".data] (fun _ => mkRat 9 10) 100 "[UNK]".data
        "unable".data ⟨0, 0, 0⟩).1 = ["un".data, "##able".data] :=
  C3_greedy_longest_match (fun _ => mkRat 9 10)
    (fun _ => show (1 : ℚ) / 10 < mkRat 9 10 by with_unfolding_all decide)

/-- C4: for a word within the length bound, with corruption disabled (every
draw exceeds 0.1) and a vocabulary under which the scan completes,
concatenating the output tokens after stripping the continuation marker from
non-initial pieces reproduces the word exactly. -/
theorem C4_roundtrip (vocab : List Str) (rsrc : Nat → ℚ) (maxChars : Nat)
    (unk word : Str) (st : ScanStats) (toks : List Str) (st2 : ScanStats)
    (hlen : word.length ≤ maxChars) (_hnc : ∀ i, (1 : ℚ) / 10 < rsrc i)
    (hdone : outerScan vocab rsrc word word.length 0 st [] = some (some toks, st2)) :
    tokenizeWord vocab rsrc maxChars unk word st = (toks, st2) ∧
      joinStrip toks = word := by
  refine ⟨?_, ?_⟩
  · unfold tokenizeWord
    rw [if_neg (by omega), hdone]
  · obtain ⟨rest, hrest, hjoin⟩ := outerScan_ok vocab rsrc word _ _ _ _ _ _ hdone
    rw [hrest, List.nil_append]
    unfold joinStrip
    rw [hjoin, List.drop_zero]

/-- C4 witness: the segmentation `["un", "##able"]` of `"unable"` concatenates
back to the word after stripping the marker. -/
theorem C4_roundtrip_concrete :
    "unable".data.length ≤ 100 ∧
    tokenizeWord ["un".data, "##able".data] (fun _ => mkRat 9 10) 100 "[UNK]".data
        "unable".data ⟨0, 0, 0⟩ = (["un".data, "##able".data], ⟨2, 6, 2⟩) ∧
    joinStrip ["un".data, "##able".data] = "unable".data := by
  have hdone : outerScan ["un".data, "##able".data] (fun _ => mkRat 9 10) "unable".data
      "unable".data.length 0 ⟨0, 0, 0⟩ [] =
      some (some ["un".data, "##able".data], ⟨2, 6, 2⟩) := by
    with_unfolding_all rfl
  have h := C4_roundtrip ["un".data, "##able".data] (fun _ => mkRat 9 10) 100
    "[UNK]".data "unable".data ⟨0, 0, 0⟩ ["un".data, "##able".data] ⟨2, 6, 2⟩
    (by decide)
    (fun _ => show (1 : ℚ) / 10 < mkRat 9 10 by with_unfolding_all decide) hdone
  exact ⟨by decide, h.1, h.2⟩

/-- C5: a word longer than `max_input_chars_per_word` tokenizes to exactly the
single token `[unk_token]`, for every vocabulary and random stream, and
consumes no draws. -/
theorem C5_oversize_unk (vocab : List Str) (rsrc : Nat → ℚ) (maxChars : Nat)
    (unk word : Str) (st : ScanStats) (h : word.length > maxChars) :
    tokenizeWord vocab rsrc maxChars unk word st = ([unk], st) := by
  unfold tokenizeWord
  rw [if_pos h]

/-- C5 witness: a length-3 word with a 2-character bound becomes `[unk]`. -/
theorem C5_oversize_concrete :
    "abc".data.length > 2 ∧
    tokenizeWord ["abc".data] (fun _ => mkRat 9 10) 2 "[UNK]".data "abc".data
        ⟨0, 0, 0⟩ = (["[UNK]".data], ⟨0, 0, 0⟩) :=
  ⟨by decide, C5_oversize_unk _ _ _ _ _ _ (by decide)⟩

/-- C6: when the scan exhausts all candidate lengths at some cursor position
(the `is_bad` outcome), the word's output is exactly `[unk_token]`, with none of
the earlier accepted sub-tokens in it. -/
theorem C6_failed_scan_unk (vocab : List Str) (rsrc : Nat → ℚ) (maxChars : Nat)
    (unk word : Str) (st st2 : ScanStats) (hlen : word.length ≤ maxChars)
    (hbad : outerScan vocab rsrc word word.length 0 st [] = some (none, st2)) :
    tokenizeWord vocab rsrc maxChars unk word st = ([unk], st2) := by
  unfold tokenizeWord
  rw [if_neg (by omega), hbad]

/-- C6 witness: with an empty vocabulary the scan for `"a"` fails and the
output is exactly `[unk]`. -/
theorem C6_failed_scan_concrete :
    outerScan [] (fun _ => mkRat 9 10) "a".data "a".data.length 0 ⟨0, 0, 0⟩ [] =
      some (none, ⟨0, 1, 0⟩) ∧
    tokenizeWord [] (fun _ => mkRat 9 10) 10 "[UNK]".data "a".data ⟨0, 0, 0⟩ =
      (["[UNK]".data], ⟨0, 1, 0⟩) := by
  have hbad : outerScan [] (fun _ => mkRat 9 10) "a".data "a".data.length 0
      ⟨0, 0, 0⟩ [] = some (none, ⟨0, 1, 0⟩) := by rfl
  exact ⟨hbad, C6_failed_scan_unk _ _ _ _ _ _ _ (by decide) hbad⟩

/-- C10: the per-word scan always terminates — fuel `word.length` suffices
because an accepted match always has `end > start`, so the cursor strictly
advances — and every nonempty word contributes at least one output token. -/
theorem C10_termination_and_progress (vocab : List Str) (rsrc : Nat → ℚ)
    (maxChars : Nat) (unk word : Str) (st : ScanStats) :
    outerScan vocab rsrc word word.length 0 st [] ≠ none ∧
    (word ≠ [] → 1 ≤ (tokenizeWord vocab rsrc maxChars unk word st).1.length) := by
  constructor
  · exact outerScan_isSome vocab rsrc word word.length 0 st [] (by omega)
  · intro hw
    unfold tokenizeWord
    by_cases h1 : word.length > maxChars
    · rw [if_pos h1]
      simp
    · rw [if_neg h1]
      rcases hO : outerScan vocab rsrc word word.length 0 st [] with _ | ⟨r, st2⟩
      · simp
      · cases r with
        | none => simp
        | some toks =>
          obtain ⟨rest, hrest, hjoin⟩ := outerScan_ok vocab rsrc word _ _ _ _ _ _ hO
          dsimp only
          rw [hrest, List.nil_append]
          rcases rest with _ | ⟨t, rest⟩
          · rw [restJoin_nil, List.drop_zero] at hjoin
            exact absurd hjoin.symm hw
          · simp

/-- C10 witness: termination and progress at a concrete word. -/
theorem C10_concrete :
    outerScan [] (fun _ => mkRat 9 10) "a".data "a".data.length 0 ⟨0, 0, 0⟩ [] ≠
      none ∧
    1 ≤ (tokenizeWord [] (fun _ => mkRat 9 10) 10 "[UNK]".data "a".data
        ⟨0, 0, 0⟩).1.length := by
  have h := C10_termination_and_progress [] (fun _ => mkRat 9 10) 10 "[UNK]".data
    "a".data ⟨0, 0, 0⟩
  exact ⟨h.1, h.2 (by decide)⟩

/-! ### Helper lemmas about the target-distribution generator -/

/-- Python division succeeds on a nonzero divisor. -/
theorem pydiv_ok (a b : ℚ) (hb : b ≠ 0) : pydiv a b = Except.ok (a / b) := by
  simp [pydiv, hb]

/-- A raising list comprehension whose body never raises is the plain map. -/
theorem mapExcept_ok {α β : Type} (f : α → Except String β) (g : α → β) :
    ∀ l : List α, (∀ x ∈ l, f x = Except.ok (g x)) →
      mapExcept f l = Except.ok (l.map g)
  | [], _ => rfl
  | a :: l, h => by
    have ha := h a (List.mem_cons_self a l)
    have hl := mapExcept_ok f g l fun x hx => h x (List.mem_cons_of_mem a hx)
    unfold mapExcept
    rw [ha, hl]
    rfl

/-- `trunc_norm_prob` succeeds with the CDF difference when `radius ≠ 0`. -/
theorem trunc_norm_prob_ok (cdf : TruncCdf) (mean low high radius center : ℚ)
    (hr : radius ≠ 0) :
    trunc_norm_prob cdf mean low high radius center =
      Except.ok (binProb cdf mean low high radius center) := by
  unfold trunc_norm_prob binProb
  rw [pydiv_ok _ _ hr, pydiv_ok _ _ hr]

/-- On `num_bins ≠ 0` and a nonzero radius, `generate_target_dist` succeeds and
returns the bin centers paired with their CDF-difference probabilities. -/
theorem generate_target_dist_ok (cdf : TruncCdf) (mean : ℚ) (num_bins : ℤ)
    (low high : ℚ) (hnb : ((num_bins : ℤ) : ℚ) ≠ 0)
    (hr : radiusOf num_bins low high ≠ 0) :
    generate_target_dist cdf mean num_bins low high =
      Except.ok (binCenters num_bins low high,
        (binCenters num_bins low high).map
          (binProb cdf mean low high (radiusOf num_bins low high))) := by
  unfold generate_target_dist
  simp only [pydiv_ok _ _ hnb]
  simp only [show 1 / 2 * (high - low) / ((num_bins : ℤ) : ℚ) =
    radiusOf num_bins low high from rfl]
  rw [show ((List.range num_bins.toNat).map
      fun x : Nat => (x : ℚ) * (2 * radiusOf num_bins low high) +
        radiusOf num_bins low high + low) = binCenters num_bins low high from rfl]
  rw [mapExcept_ok _ (binProb cdf mean low high (radiusOf num_bins low high)) _
    fun c _ => trunc_norm_prob_ok cdf mean low high _ c hr]

/-- Telescoping: summing consecutive differences of `f` over `range n`. -/
theorem sum_map_sub_telescope (f : Nat → ℚ) :
    ∀ n : Nat, ((List.range n).map fun i => f (i + 1) - f i).sum = f n - f 0
  | 0 => by simp
  | n + 1 => by
    rw [List.range_succ, List.map_append, List.sum_append,
      sum_map_sub_telescope f n]
    simp

/-! ### Claim theorems about the target-distribution generator -/

/-- C1 counterexample: `num_bins = -1 ≤ 0` does not signal any error — the call
succeeds, returning empty supports and probabilities — refuting the claim that
every `num_bins <= 0` call fails with a validation error. -/
theorem C1_counterexample :
    generate_target_dist (fun _ _ _ _ _ => 0) 0 (-1) 0 1 = Except.ok ([], []) := by
  rfl

/-- C1 (amended): `generate_target_dist` performs no input validation. With
`num_bins = 0` it raises `ZeroDivisionError` (an arithmetic error, not a
validation error); with `num_bins < 0` it silently succeeds with empty output;
with `num_bins > 0` and `low = high` it raises `ZeroDivisionError`; with
`num_bins > 0` and `low ≠ high` (including the invalid `low > high`) it
succeeds with `num_bins` centers and probabilities. -/
theorem C1_no_input_validation (cdf : TruncCdf) (mean : ℚ) (num_bins : ℤ)
    (low high : ℚ) :
    (num_bins = 0 → generate_target_dist cdf mean num_bins low high =
        Except.error "ZeroDivisionError") ∧
    (num_bins < 0 → generate_target_dist cdf mean num_bins low high =
        Except.ok ([], [])) ∧
    (0 < num_bins → low = high → generate_target_dist cdf mean num_bins low high =
        Except.error "ZeroDivisionError") ∧
    (0 < num_bins → low ≠ high →
      ∃ supports probs, generate_target_dist cdf mean num_bins low high =
        Except.ok (supports, probs) ∧ supports.length = num_bins.toNat ∧
        probs.length = num_bins.toNat) := by
  refine ⟨?_, ?_, ?_, ?_⟩
  · intro h
    subst h
    unfold generate_target_dist
    simp [pydiv]
  · intro h
    have hne : ((num_bins : ℤ) : ℚ) ≠ 0 := Int.cast_ne_zero.mpr (by omega)
    have ht : num_bins.toNat = 0 := by omega
    unfold generate_target_dist
    rw [pydiv_ok _ _ hne]
    simp only [ht]
    rfl
  · intro hpos heq
    subst heq
    have hne : ((num_bins : ℤ) : ℚ) ≠ 0 := Int.cast_ne_zero.mpr (by omega)
    unfold generate_target_dist
    rw [pydiv_ok _ _ hne]
    have hr0 : 1 / 2 * (low - low) / ((num_bins : ℤ) : ℚ) = 0 := by
      rw [sub_self]
      ring
    simp only [hr0]
    obtain ⟨k, hk⟩ : ∃ k, num_bins.toNat = k + 1 := ⟨num_bins.toNat - 1, by omega⟩
    simp only [hk, List.range_succ_eq_map, List.map_cons]
    rfl
  · intro hpos hne
    have hnb : ((num_bins : ℤ) : ℚ) ≠ 0 := Int.cast_ne_zero.mpr (by omega)
    have hr : radiusOf num_bins low high ≠ 0 := by
      unfold radiusOf
      exact div_ne_zero (by
        simpa using sub_ne_zero.mpr (Ne.symm hne)) hnb
    exact ⟨binCenters num_bins low high,
      (binCenters num_bins low high).map
        (binProb cdf mean low high (radiusOf num_bins low high)),
      generate_target_dist_ok cdf mean num_bins low high hnb hr,
      by simp only [binCenters, List.length_map, List.length_range],
      by simp only [binCenters, List.length_map, List.length_range]⟩

/-- C1 witness: the four regimes at concrete inputs. -/
theorem C1_regimes_concrete :
    generate_target_dist (fun _ _ _ _ _ => 0) 0 0 0 1 =
      Except.error "ZeroDivisionError" ∧
    generate_target_dist (fun _ _ _ _ _ => 0) 0 (-2) 0 1 = Except.ok ([], []) ∧
    generate_target_dist (fun _ _ _ _ _ => 0) (1/2) 4 1 1 =
      Except.error "ZeroDivisionError" ∧
    (∃ supports probs, generate_target_dist (fun _ _ _ _ _ => 0) (1/2) 4 0 1 =
      Except.ok (supports, probs) ∧ supports.length = (4 : ℤ).toNat ∧
      probs.length = (4 : ℤ).toNat) :=
  ⟨(C1_no_input_validation (fun _ _ _ _ _ => 0) 0 0 0 1).1 rfl,
   (C1_no_input_validation (fun _ _ _ _ _ => 0) 0 (-2) 0 1).2.1 (by decide),
   (C1_no_input_validation (fun _ _ _ _ _ => 0) (1/2) 4 1 1).2.2.1 (by decide) rfl,
   (C1_no_input_validation (fun _ _ _ _ _ => 0) (1/2) 4 0 1).2.2.2 (by decide)
     (by decide)⟩

/-- C7: for `num_bins > 0` and `low < high` the generator returns exactly the
`num_bins` bin centers evenly spaced from `low + radius` with step `2*radius`,
where `radius = 0.5 * (high - low) / num_bins`; concretely, for
`num_bins = 4, low = 0, high = 1` the radius is `1/8` and the centers are
`[1/8, 3/8, 5/8, 7/8]`. -/
theorem C7_bin_centers (cdf : TruncCdf) (mean : ℚ) (num_bins : ℤ) (low high : ℚ)
    (hpos : 0 < num_bins) (hlh : low < high) :
    (∃ probs, generate_target_dist cdf mean num_bins low high =
        Except.ok (binCenters num_bins low high, probs)) ∧
    (binCenters num_bins low high).length = num_bins.toNat ∧
    (∀ (i : Nat) (hi : i < (binCenters num_bins low high).length),
      (binCenters num_bins low high).get ⟨i, hi⟩ =
        low + radiusOf num_bins low high + 2 * radiusOf num_bins low high * i) ∧
    radiusOf 4 0 1 = 1 / 8 ∧
    binCenters 4 0 1 = [1 / 8, 3 / 8, 5 / 8, 7 / 8] := by
  have hnb : ((num_bins : ℤ) : ℚ) ≠ 0 := Int.cast_ne_zero.mpr (by omega)
  have hr : radiusOf num_bins low high ≠ 0 := by
    unfold radiusOf
    exact div_ne_zero (by
      simpa using sub_ne_zero.mpr (ne_of_gt hlh)) hnb
  have hrad : radiusOf 4 0 1 = 1 / 8 := by
    unfold radiusOf
    norm_num
  refine ⟨⟨_, generate_target_dist_ok cdf mean num_bins low high hnb hr⟩,
    by simp only [binCenters, List.length_map, List.length_range], ?_, hrad, ?_⟩
  · intro i hi
    rw [List.get_eq_getElem]
    have hi2 : i < (List.range num_bins.toNat).length := by
      simpa only [binCenters, List.length_map] using hi
    rw [show (binCenters num_bins low high)[i] =
        ((List.range num_bins.toNat).map
          (fun x : Nat => (x : ℚ) * (2 * radiusOf num_bins low high) +
            radiusOf num_bins low high + low))[i] from rfl]
    rw [List.getElem_map, List.getElem_range]
    ring
  · with_unfolding_all rfl

/-- C7 witness: the centers at the concrete scenario of the claim. -/
theorem C7_concrete :
    (0 : ℤ) < 4 ∧ (0 : ℚ) < 1 ∧
    (∃ probs, generate_target_dist (fun _ _ _ _ _ => 0) (1/2) 4 0 1 =
      Except.ok (binCenters 4 0 1, probs)) ∧
    binCenters 4 0 1 = [1 / 8, 3 / 8, 5 / 8, 7 / 8] := by
  have h := C7_bin_centers (fun _ _ _ _ _ => 0) (1/2) 4 0 1 (by decide) (by decide)
  exact ⟨by decide, by decide, h.1, h.2.2.2.2⟩

/-- C8 counterexample: at the raising key `num_bins = 0` the second call with
identical arguments re-invokes the underlying computation (one invocation, not
zero), because `lru_cache` never cached the raised `ZeroDivisionError` —
refuting the claim that the second call always returns the previously computed
result without recomputing. -/
theorem C8_counterexample :
    (generate_target_dist_cached (fun _ _ _ _ _ => 0)
        (generate_target_dist_cached (fun _ _ _ _ _ => 0) ⟨[]⟩ (0, 0, 0, 1)).2.1
        (0, 0, 0, 1)).2.2 ≠ 0 := by
  decide

/-- C8 (amended): calling the memoized `generate_target_dist` twice with the
identical `(mean, num_bins, low, high)` key returns identical output. When the
computation returns normally, the second call returns the previously computed
result with zero invocations of the underlying computation (a cache hit). When
it raises (reachable, e.g. `num_bins = 0`), the exception is not cached: on a
cache miss the call re-raises the identical error and the repeat call
recomputes (one invocation again). -/
theorem C8_memoized_on_success (cdf : TruncCdf)
    (c : MemoCache GtdKey (List ℚ × List ℚ)) (k : GtdKey) :
    ((∃ v, generate_target_dist cdf k.1 k.2.1 k.2.2.1 k.2.2.2 = Except.ok v) →
      (generate_target_dist_cached cdf
          (generate_target_dist_cached cdf c k).2.1 k).1 =
        (generate_target_dist_cached cdf c k).1 ∧
      (generate_target_dist_cached cdf
          (generate_target_dist_cached cdf c k).2.1 k).2.2 = 0) ∧
    (∀ e, generate_target_dist cdf k.1 k.2.1 k.2.2.1 k.2.2.2 = Except.error e →
      lookupKey k c.table = none →
      (generate_target_dist_cached cdf c k).1 = Except.error e ∧
      (generate_target_dist_cached cdf
          (generate_target_dist_cached cdf c k).2.1 k).1 = Except.error e ∧
      (generate_target_dist_cached cdf
          (generate_target_dist_cached cdf c k).2.1 k).2.2 = 1) := by
  constructor
  · rintro ⟨v, hv⟩
    unfold generate_target_dist_cached cachedCall
    rcases hl : lookupKey k c.table with _ | v0
    · simp only [hl, hv]
      simp [lookupKey]
    · simp only [hl]
      simp [hl]
  · intro e he hmiss
    unfold generate_target_dist_cached cachedCall
    simp only [hmiss, he]
    exact ⟨trivial, trivial, trivial⟩

/-- C8 witness: both regimes at concrete keys — the valid key
`(1/2, 4, 0, 1)` is computed once and then served from the cache, while the
raising key `(0, 0, 0, 1)` re-raises `ZeroDivisionError` and recomputes. -/
theorem C8_regimes_concrete :
    ((generate_target_dist_cached clampCdf
        (generate_target_dist_cached clampCdf ⟨[]⟩ (1/2, 4, 0, 1)).2.1
        (1/2, 4, 0, 1)).1 =
      (generate_target_dist_cached clampCdf ⟨[]⟩ (1/2, 4, 0, 1)).1 ∧
     (generate_target_dist_cached clampCdf
        (generate_target_dist_cached clampCdf ⟨[]⟩ (1/2, 4, 0, 1)).2.1
        (1/2, 4, 0, 1)).2.2 = 0) ∧
    ((generate_target_dist_cached clampCdf ⟨[]⟩ (0, 0, 0, 1)).1 =
      Except.error "ZeroDivisionError" ∧
     (generate_target_dist_cached clampCdf
        (generate_target_dist_cached clampCdf ⟨[]⟩ (0, 0, 0, 1)).2.1
        (0, 0, 0, 1)).1 = Except.error "ZeroDivisionError" ∧
     (generate_target_dist_cached clampCdf
        (generate_target_dist_cached clampCdf ⟨[]⟩ (0, 0, 0, 1)).2.1
        (0, 0, 0, 1)).2.2 = 1) :=
  ⟨(C8_memoized_on_success clampCdf ⟨[]⟩ (1/2, 4, 0, 1)).1
      ⟨_, by with_unfolding_all rfl⟩,
   (C8_memoized_on_success clampCdf ⟨[]⟩ (0, 0, 0, 1)).2 "ZeroDivisionError"
      (by with_unfolding_all rfl) rfl⟩

/-- Summing the CDF-difference bin probabilities over the evenly spaced
centers telescopes to the CDF difference at the outermost bin edges. -/
theorem binProb_sum (cdf : TruncCdf) (mean low high r : ℚ) (n : Nat) :
    (((List.range n).map fun x : Nat => (x : ℚ) * (2 * r) + r + low).map
        (binProb cdf mean low high r)).sum =
      cdf (low + 2 * r * (n : ℚ)) ((low - mean) / r) ((high - mean) / r) mean r -
        cdf low ((low - mean) / r) ((high - mean) / r) mean r := by
  rw [List.map_map]
  have hfun : (binProb cdf mean low high r ∘
      fun x : Nat => (x : ℚ) * (2 * r) + r + low) =
      fun i : Nat =>
        (fun j : Nat => cdf (low + 2 * r * (j : ℚ)) ((low - mean) / r)
          ((high - mean) / r) mean r) (i + 1) -
        (fun j : Nat => cdf (low + 2 * r * (j : ℚ)) ((low - mean) / r)
          ((high - mean) / r) mean r) i := by
    funext i
    show binProb cdf mean low high r ((i : ℚ) * (2 * r) + r + low) = _
    unfold binProb
    rw [show (i : ℚ) * (2 * r) + r + low + r = low + 2 * r * ((i : ℚ) + 1) by
      ring]
    rw [show (i : ℚ) * (2 * r) + r + low - r = low + 2 * r * (i : ℚ) by ring]
    push_cast
    ring_nf
  rw [hfun, sum_map_sub_telescope (fun j : Nat => cdf (low + 2 * r * (j : ℚ))
    ((low - mean) / r) ((high - mean) / r) mean r) n]
  norm_num

/-- C9: for valid inputs the probabilities sum to the truncated-CDF mass of
`[low, high]`, which lies in `[0, 1]` for any monotone CDF bounded by 0 and 1
(truncation/discretization at the extreme bins is the only mass loss). -/
theorem C9_prob_sum (cdf : TruncCdf) (mean : ℚ) (num_bins : ℤ) (low high : ℚ)
    (supports probs : List ℚ) (hpos : 0 < num_bins) (hlh : low < high)
    (hmono : ∀ a b loc sc x y, x ≤ y → cdf x a b loc sc ≤ cdf y a b loc sc)
    (hrange : ∀ x a b loc sc, 0 ≤ cdf x a b loc sc ∧ cdf x a b loc sc ≤ 1)
    (hok : generate_target_dist cdf mean num_bins low high =
      Except.ok (supports, probs)) :
    probs.sum =
      cdf high ((low - mean) / radiusOf num_bins low high)
          ((high - mean) / radiusOf num_bins low high) mean
          (radiusOf num_bins low high) -
        cdf low ((low - mean) / radiusOf num_bins low high)
          ((high - mean) / radiusOf num_bins low high) mean
          (radiusOf num_bins low high) ∧
    0 ≤ probs.sum ∧ probs.sum ≤ 1 := by
  have hnb : ((num_bins : ℤ) : ℚ) ≠ 0 := Int.cast_ne_zero.mpr (by omega)
  have hr : radiusOf num_bins low high ≠ 0 := by
    unfold radiusOf
    exact div_ne_zero (by
      simpa using sub_ne_zero.mpr (ne_of_gt hlh)) hnb
  rw [generate_target_dist_ok cdf mean num_bins low high hnb hr] at hok
  simp only [Except.ok.injEq, Prod.mk.injEq] at hok
  obtain ⟨-, hprobs⟩ := hok
  have hprobs2 : probs = ((List.range num_bins.toNat).map
      fun x : Nat => (x : ℚ) * (2 * radiusOf num_bins low high) +
        radiusOf num_bins low high + low).map
      (binProb cdf mean low high (radiusOf num_bins low high)) := by
    rw [← hprobs]
    rfl
  have hcast : ((num_bins.toNat : Nat) : ℚ) = ((num_bins : ℤ) : ℚ) := by
    rw [show ((num_bins.toNat : Nat) : ℚ) = (((num_bins.toNat : Nat) : ℤ) : ℚ)
        from by push_cast; ring]
    rw [Int.toNat_of_nonneg hpos.le]
  have hhigh : low + 2 * radiusOf num_bins low high *
      ((num_bins.toNat : Nat) : ℚ) = high := by
    rw [hcast]
    unfold radiusOf
    field_simp
    ring
  have hsum : probs.sum =
      cdf high ((low - mean) / radiusOf num_bins low high)
          ((high - mean) / radiusOf num_bins low high) mean
          (radiusOf num_bins low high) -
        cdf low ((low - mean) / radiusOf num_bins low high)
          ((high - mean) / radiusOf num_bins low high) mean
          (radiusOf num_bins low high) := by
    rw [hprobs2, binProb_sum cdf mean low high (radiusOf num_bins low high)
      num_bins.toNat, hhigh]
  refine ⟨hsum, ?_, ?_⟩
  · rw [hsum]
    exact sub_nonneg.mpr (hmono _ _ _ _ _ _ hlh.le)
  · rw [hsum]
    have h1 := (hrange high ((low - mean) / radiusOf num_bins low high)
      ((high - mean) / radiusOf num_bins low high) mean
      (radiusOf num_bins low high)).2
    have h2 := (hrange low ((low - mean) / radiusOf num_bins low high)
      ((high - mean) / radiusOf num_bins low high) mean
      (radiusOf num_bins low high)).1
    linarith

/-- C9 witness: at the concrete scenario with the clamp CDF, the probabilities
are `[1/4, 1/4, 1/4, 1/4]`, summing to 1. -/
theorem C9_concrete :
    generate_target_dist clampCdf (1/2) 4 0 1 =
      Except.ok ([1/8, 3/8, 5/8, 7/8], [1/4, 1/4, 1/4, 1/4]) ∧
    0 ≤ ([1/4, 1/4, 1/4, 1/4] : List ℚ).sum ∧
    ([1/4, 1/4, 1/4, 1/4] : List ℚ).sum ≤ 1 := by
  have hok : generate_target_dist clampCdf (1/2) 4 0 1 =
      Except.ok ([1/8, 3/8, 5/8, 7/8], [1/4, 1/4, 1/4, 1/4]) := by
    with_unfolding_all rfl
  have h := C9_prob_sum clampCdf (1/2) 4 0 1 [1/8, 3/8, 5/8, 7/8]
    [1/4, 1/4, 1/4, 1/4] (by decide) (by decide)
    (fun a b loc sc x y hxy =>
      max_le_max (le_refl 0) (min_le_min (le_refl 1) hxy))
    (fun x a b loc sc =>
      ⟨le_max_left _ _, max_le (by decide) (min_le_left _ _)⟩)
    hok
  exact ⟨hok, h.2.1, h.2.2⟩

end Jigsaw
